import Mathlib

/-
Verification of the raw Unix-domain-socket random-bytes protocol
(src/socket-benchmark/socket_server.cc and socket_client.cc).

The C++ code is embedded shallowly: every system call (recv, send,
getrandom, socket, connect, select, accept) is represented by the value
it returns, supplied through an explicit environment record.  The
embedded functions mirror the control flow of the source line by line;
side effects that the source performs on the wire are recorded in an
explicit trace so that theorems can speak about what was written.
-/

set_option linter.unusedVariables false

/-- Protocol request header (socket_server.cc / socket_client.cc,
`struct RandomBytesRequest`): a single unsigned 32-bit field. -/
structure RandomBytesRequest where
  num_bytes : Nat
  deriving Repr, DecidableEq

/-- Protocol response header (`struct RandomBytesResponse`): a single
unsigned 32-bit field, followed on the wire by that many payload bytes. -/
structure RandomBytesResponse where
  actual_bytes : Nat
  deriving Repr, DecidableEq

/-- Embedding of `generate_random_bytes` (socket_server.cc lines 45-65).
`grResult` is the ssize_t value the single `getrandom` call returns.
Returns the success flag together with the count passed to `getrandom`
(`none` when `getrandom` is never called, i.e. when `num_bytes = 0`). -/
def generate_random_bytes (grResult : Int) (num_bytes : Nat) : Bool × Option Nat :=
  if num_bytes = 0 then
    (true, none)
  else if grResult < 0 then
    (false, some num_bytes)
  else if grResult ≠ (num_bytes : Int) then
    (false, some num_bytes)
  else
    (true, some num_bytes)

/-- The payload send loop of `handle_client` (socket_server.cc lines
96-107): `while (total_sent < num_bytes) { send(...); if (<= 0) fail;
total_sent += result; }`.  The list holds the successive ssize_t values
returned by `send`; the result is the success flag and the final
`total_sent`.  An exhausted list with the loop still unfinished counts
as failure (the real loop would still be blocked in `send`). -/
def sendLoop (num_bytes : Nat) : List Int → Nat → Bool × Nat
  | [], total_sent => (decide (num_bytes ≤ total_sent), total_sent)
  | r :: rest, total_sent =>
    if total_sent < num_bytes then
      if r ≤ 0 then (false, total_sent)
      else sendLoop num_bytes rest (total_sent + r.toNat)
    else (true, total_sent)

/-- Environment of one `handle_client` run: the values the system calls
return.  `reqRecv` is the ssize_t returned by the single `recv` of the
4-byte request header; `reqVal` is the header contents (meaningful only
when all 4 bytes were delivered); `grResult` is the `getrandom` return
value; `hdrSend` is the `send` result for the 4-byte response header;
`paySends` are the successive `send` results inside the payload loop. -/
structure ServerEnv where
  reqRecv : Int
  reqVal : RandomBytesRequest
  grResult : Int
  hdrSend : Int
  paySends : List Int
  deriving Repr, DecidableEq

/-- What one `handle_client` run wrote and asked for: the argument passed
to `generate_random_bytes` (`none` when the request header was never
decoded), the count passed to `getrandom` (`none` when not called), whether
the response-header `send` was reached, the header actually sent in full,
whether the payload send loop was entered, and the payload bytes sent. -/
structure ServerTrace where
  genRequested : Option Nat
  entropyQuery : Option Nat
  headerWriteAttempted : Bool
  headerSent : Option RandomBytesResponse
  payloadLoopEntered : Bool
  payloadSent : Nat
  deriving Repr, DecidableEq

/-- Embedding of `handle_client` (socket_server.cc lines 67-110):
read the request header with one `recv` and fail unless exactly
`sizeof(request)` = 4 bytes arrived; no validation of `num_bytes`
(the source comment reads: Validate request - no size limits imposed);
generate the random bytes; send the response header with
`actual_bytes = request.num_bytes` and fail unless all 4 bytes were sent;
if `num_bytes > 0`, run the payload send loop. -/
def handle_client (env : ServerEnv) : Bool × ServerTrace :=
  if env.reqRecv ≠ 4 then
    (false, ⟨none, none, false, none, false, 0⟩)
  else
    let nb := env.reqVal.num_bytes
    let gen := generate_random_bytes env.grResult nb
    if gen.1 then
      if env.hdrSend ≠ 4 then
        (false, ⟨some nb, gen.2, true, none, false, 0⟩)
      else if 0 < nb then
        let loop := sendLoop nb env.paySends 0
        (loop.1, ⟨some nb, gen.2, true, some ⟨nb⟩, true, loop.2⟩)
      else
        (true, ⟨some nb, gen.2, true, some ⟨nb⟩, false, 0⟩)
    else
      (false, ⟨some nb, gen.2, false, none, false, 0⟩)

/-- The payload receive loop of `SocketRandomBytesClient::GetRandomBytes`
(socket_client.cc lines 95-107): `while (total_received < actual_bytes)
{ recv(...); if (<= 0) fail; total_received += result; }`.  The list holds
the successive ssize_t values returned by `recv`. -/
def recvLoop (actual_bytes : Nat) : List Int → Nat → Bool × Nat
  | [], total_received => (decide (actual_bytes ≤ total_received), total_received)
  | r :: rest, total_received =>
    if total_received < actual_bytes then
      if r ≤ 0 then (false, total_received)
      else recvLoop actual_bytes rest (total_received + r.toNat)
    else (true, total_received)

/-- Environment of one `GetRandomBytes` call: whether `socket` and
`connect` succeed, the `send` result for the 4-byte request header, the
`recv` result for the 4-byte response header, the response header contents
(meaningful only when all 4 bytes were delivered), and the successive
`recv` results inside the payload loop. -/
structure ClientEnv where
  socketOk : Bool
  connectOk : Bool
  sendResult : Int
  hdrRecv : Int
  respVal : RandomBytesResponse
  payRecvs : List Int
  deriving Repr, DecidableEq

/-- Outcome of one `GetRandomBytes` call: the bool the function returns,
the response header it fully received (if any), whether the payload
receive loop was entered, how many payload bytes were received, and
whether `close(sock_fd)` was issued (it is issued on every path after
socket creation succeeds, success or failure alike). -/
structure ClientResult where
  success : Bool
  receivedHeader : Option RandomBytesResponse
  payloadReadEntered : Bool
  payloadReceived : Nat
  closedSocket : Bool
  deriving Repr, DecidableEq

/-- Embedding of `SocketRandomBytesClient::GetRandomBytes`
(socket_client.cc lines 41-135): create socket, connect, send the request
header (fail unless all 4 bytes sent in one call), receive the response
header with one `recv` (fail unless exactly 4 bytes arrived), then if
`response.actual_bytes > 0` run the payload receive loop.  The requested
`num_bytes` only enters the request that is sent; nothing in the function
compares it with the response. -/
def GetRandomBytes (env : ClientEnv) (num_bytes : Nat) : ClientResult :=
  if env.socketOk then
    if env.connectOk then
      if env.sendResult ≠ 4 then ⟨false, none, false, 0, true⟩
      else if env.hdrRecv ≠ 4 then ⟨false, none, false, 0, true⟩
      else
        let resp := env.respVal
        if 0 < resp.actual_bytes then
          let loop := recvLoop resp.actual_bytes env.payRecvs 0
          ⟨loop.1, some resp, true, loop.2, true⟩
        else
          ⟨true, some resp, false, 0, true⟩
    else ⟨false, none, false, 0, true⟩
  else ⟨false, none, false, 0, false⟩

/-- The client driver loop of `main` (socket_client.cc lines 230-238):
one bool per iteration (the value `GetRandomBytes` returned), consumed in
order with no early exit; returns `(successful_calls, calls_made)`. -/
def run_calls : List Bool → Nat × Nat
  | [] => (0, 0)
  | b :: rest =>
    let r := run_calls rest
    ((if b then 1 else 0) + r.1, 1 + r.2)

/-- The client process exit code (socket_client.cc line 254):
`(successful_calls == iterations) ? 0 : 1`. -/
def client_exit_code (outcomes : List Bool) : Nat :=
  if (run_calls outcomes).1 = outcomes.length then 0 else 1

/-- One event observed by the server accept loop: a `select` error
(interrupted or not), a `select` timeout, a failed `accept`, or an
accepted client connection with its `handle_client` environment. -/
inductive ServerEvent where
  | selectErr (eintr : Bool)
  | selectTimeout
  | acceptFail
  | client (env : ServerEnv)
  deriving Repr, DecidableEq

/-- How the server accept loop ended: the `running` flag was observed
false, `select` failed with an error other than EINTR, or the supplied
event list ran out with the loop still going. -/
inductive LoopExit where
  | shutdown
  | selectFailure
  | ranOut
  deriving Repr, DecidableEq

/-- Embedding of the server main loop (socket_server.cc lines 176-210).
Each list element carries the value of the `running` flag at the top of
that iteration and the event the iteration observes.  Returns how the
loop ended, how many client connections were handled, and how many
`close(client_fd)` calls were issued.  `handle_client`'s return value is
ignored exactly as in the source (line 207), and `close` follows it
unconditionally (line 208). -/
def server_loop : List (Bool × ServerEvent) → LoopExit × Nat × Nat
  | [] => (LoopExit.ranOut, 0, 0)
  | (run, ev) :: rest =>
    if run then
      match ev with
      | ServerEvent.selectErr eintr =>
        if eintr then server_loop rest
        else (LoopExit.selectFailure, 0, 0)
      | ServerEvent.selectTimeout => server_loop rest
      | ServerEvent.acceptFail => server_loop rest
      | ServerEvent.client cenv =>
        let r := server_loop rest
        (r.1, r.2.1 + 1, r.2.2 + 1)
    else (LoopExit.shutdown, 0, 0)

/-- Events that at worst fail one connection: a select timeout, an
EINTR-interrupted select, a failed accept, or any client connection
(whatever its `handle_client` outcome). -/
def perConnEvent : ServerEvent → Bool
  | ServerEvent.selectErr eintr => eintr
  | ServerEvent.selectTimeout => true
  | ServerEvent.acceptFail => true
  | ServerEvent.client _ => true

/-- One command-line option of the client executable, already split into
flag and `atoi`-converted value (socket_client.cc lines 171-212). -/
inductive CliOpt where
  | iterations (v : Int)
  | bytes (v : Int)
  | timeout (v : Int)
  | log
  | quiet
  | socket
  | help
  | badOpt
  deriving Repr, DecidableEq

/-- Result of option parsing in the client `main`: either an early
`return` with an exit code (before any socket is created), or falling
through to the benchmark loop with the accumulated settings. -/
inductive ParseOutcome where
  | exit (code : Nat)
  | run (iterations : Int) (bytes : Int) (log_output : Bool)
  deriving Repr, DecidableEq

/-- Embedding of the `getopt_long` loop of the client `main`
(socket_client.cc lines 171-212), with the initial values
`iterations = 1`, `bytes = 10`, `log_output = true` supplied by the
caller.  A non-positive iteration or byte count and a negative timeout
each return 1 immediately; `-h` returns 0; an unknown option returns 1. -/
def parse_args : List CliOpt → Int → Int → Bool → ParseOutcome
  | [], iterations, bytes, log_output => ParseOutcome.run iterations bytes log_output
  | opt :: rest, iterations, bytes, log_output =>
    match opt with
    | CliOpt.iterations v =>
      if v ≤ 0 then ParseOutcome.exit 1 else parse_args rest v bytes log_output
    | CliOpt.bytes v =>
      if v ≤ 0 then ParseOutcome.exit 1 else parse_args rest iterations v log_output
    | CliOpt.timeout v =>
      if v < 0 then ParseOutcome.exit 1 else parse_args rest iterations bytes log_output
    | CliOpt.log => parse_args rest iterations bytes true
    | CliOpt.quiet => parse_args rest iterations bytes false
    | CliOpt.socket => parse_args rest iterations bytes log_output
    | CliOpt.help => ParseOutcome.exit 0
    | CliOpt.badOpt => ParseOutcome.exit 1

/-- OS discipline for a transfer loop asked for `n` bytes in total: each
listed syscall result, at the moment it would be consumed, is at most the
remaining count that was requested (`recv`/`send` never transfer more
than asked).  Results at positions after the loop has already finished
are unconstrained because the loop never reads them. -/
def chunksBounded (n : Nat) : List Int → Nat → Bool
  | [], _ => true
  | r :: rest, total =>
    if total < n then
      decide (r ≤ ((n - total : Nat) : Int)) && chunksBounded n rest (total + r.toNat)
    else true

/-- A transfer schedule that delivers exactly `n` bytes starting from
`total`: every listed result is positive, within the remaining count,
and they sum to the missing amount. -/
def chunksOk (n : Nat) : List Int → Nat → Bool
  | [], total => decide (total = n)
  | r :: rest, total =>
    decide (0 < r) && decide (r ≤ ((n - total : Nat) : Int)) && chunksOk n rest (total + r.toNat)

/-- A transfer schedule of positive in-bound results that stops strictly
short of `n`: the state after consuming all of them still misses bytes. -/
def chunksShort (n : Nat) : List Int → Nat → Bool
  | [], total => decide (total < n)
  | r :: rest, total =>
    decide (0 < r) && decide (r ≤ ((n - total : Nat) : Int)) && chunksShort n rest (total + r.toNat)

/-- The send loop never transfers past the requested total when the OS
bound holds: on success the final `total_sent` is exactly `num_bytes`. -/
theorem sendLoop_exact (n : Nat) :
    ∀ (l : List Int) (t : Nat), t ≤ n → chunksBounded n l t = true →
      (sendLoop n l t).1 = true → (sendLoop n l t).2 = n := by
  intro l
  induction l with
  | nil =>
    intro t ht _ hs
    simp only [sendLoop, decide_eq_true_eq] at hs ⊢
    omega
  | cons r rest ih =>
    intro t ht hb hs
    simp only [sendLoop] at hs ⊢
    by_cases hlt : t < n
    · simp only [hlt, if_true] at hs ⊢
      by_cases hr : r ≤ 0
      · simp [hr] at hs
      · simp only [hr, if_false] at hs ⊢
        simp only [chunksBounded, hlt, if_true, Bool.and_eq_true, decide_eq_true_eq] at hb
        have hrn : r.toNat ≤ n - t := by
          have := Int.toNat_le_toNat hb.1
          simpa using this
        exact ih (t + r.toNat) (by omega) hb.2 hs
    · simp only [hlt, if_false] at hs ⊢
      omega

/-- The receive loop mirror of `sendLoop_exact`: on success the final
`total_received` is exactly `actual_bytes`. -/
theorem recvLoop_exact (n : Nat) :
    ∀ (l : List Int) (t : Nat), t ≤ n → chunksBounded n l t = true →
      (recvLoop n l t).1 = true → (recvLoop n l t).2 = n := by
  intro l
  induction l with
  | nil =>
    intro t ht _ hs
    simp only [recvLoop, decide_eq_true_eq] at hs ⊢
    omega
  | cons r rest ih =>
    intro t ht hb hs
    simp only [recvLoop] at hs ⊢
    by_cases hlt : t < n
    · simp only [hlt, if_true] at hs ⊢
      by_cases hr : r ≤ 0
      · simp [hr] at hs
      · simp only [hr, if_false] at hs ⊢
        simp only [chunksBounded, hlt, if_true, Bool.and_eq_true, decide_eq_true_eq] at hb
        have hrn : r.toNat ≤ n - t := by
          have := Int.toNat_le_toNat hb.1
          simpa using this
        exact ih (t + r.toNat) (by omega) hb.2 hs
    · simp only [hlt, if_false] at hs ⊢
      omega

/-- Any schedule of positive in-bound fragments that sums to the missing
amount makes the receive loop succeed with exactly `n` bytes. -/
theorem recvLoop_complete (n : Nat) :
    ∀ (l : List Int) (t : Nat), chunksOk n l t = true →
      recvLoop n l t = (true, n) := by
  intro l
  induction l with
  | nil =>
    intro t hok
    simp only [chunksOk, decide_eq_true_eq] at hok
    subst hok
    simp [recvLoop]
  | cons r rest ih =>
    intro t hok
    simp only [chunksOk, Bool.and_eq_true, decide_eq_true_eq] at hok
    obtain ⟨⟨hr, hbound⟩, hrest⟩ := hok
    have hr1 : 1 ≤ r.toNat := by omega
    have hrn : r.toNat ≤ n - t := by
      have := Int.toNat_le_toNat hbound
      simpa using this
    have hlt : t < n := by omega
    simp only [recvLoop, hlt, if_true]
    have hrneg : ¬ r ≤ 0 := by omega
    simp only [hrneg, if_false]
    exact ih (t + r.toNat) hrest

/-- The same completeness property for the server payload send loop. -/
theorem sendLoop_complete (n : Nat) :
    ∀ (l : List Int) (t : Nat), chunksOk n l t = true →
      sendLoop n l t = (true, n) := by
  intro l
  induction l with
  | nil =>
    intro t hok
    simp only [chunksOk, decide_eq_true_eq] at hok
    subst hok
    simp [sendLoop]
  | cons r rest ih =>
    intro t hok
    simp only [chunksOk, Bool.and_eq_true, decide_eq_true_eq] at hok
    obtain ⟨⟨hr, hbound⟩, hrest⟩ := hok
    have hr1 : 1 ≤ r.toNat := by omega
    have hrn : r.toNat ≤ n - t := by
      have := Int.toNat_le_toNat hbound
      simpa using this
    have hlt : t < n := by omega
    simp only [sendLoop, hlt, if_true]
    have hrneg : ¬ r ≤ 0 := by omega
    simp only [hrneg, if_false]
    exact ih (t + r.toNat) hrest

/-- A read returning 0 or a negative value while bytes are still missing
makes the receive loop fail, whatever comes afterwards. -/
theorem recvLoop_short_read_fail (n : Nat) :
    ∀ (pre : List Int) (t : Nat) (r : Int) (rest : List Int),
      chunksShort n pre t = true → r ≤ 0 →
      (recvLoop n (pre ++ r :: rest) t).1 = false := by
  intro pre
  induction pre with
  | nil =>
    intro t r rest hp hr
    simp only [chunksShort, decide_eq_true_eq] at hp
    simp [recvLoop, hp, hr]
  | cons p pre ih =>
    intro t r rest hp hr
    simp only [chunksShort, Bool.and_eq_true, decide_eq_true_eq] at hp
    obtain ⟨⟨hppos, hbound⟩, hrest⟩ := hp
    have hp1 : 1 ≤ p.toNat := by omega
    have hpn : p.toNat ≤ n - t := by
      have := Int.toNat_le_toNat hbound
      simpa using this
    have hlt : t < n := by omega
    have hpneg : ¬ p ≤ 0 := by omega
    simp only [List.cons_append, recvLoop, hlt, if_true, hpneg, if_false]
    exact ih (t + p.toNat) r rest hrest hr

/-- C3: a request for exactly 0 random bytes succeeds end to end: the
server decodes num_bytes = 0, never calls getrandom (entropyQuery = none),
sends a header with actual_bytes = 0 and skips the payload send loop; the
client accepts the header, skips the payload receive loop and returns
success with an empty payload — only the two fixed headers cross the wire
(payloadLoopEntered = false, payloadSent = 0, payloadReadEntered = false,
payloadReceived = 0). -/
theorem c3_zero_length (senv : ServerEnv) (cenv : ClientEnv)
    (hreq : senv.reqRecv = 4) (hval : senv.reqVal = ⟨0⟩) (hhdr : senv.hdrSend = 4)
    (hsock : cenv.socketOk = true) (hconn : cenv.connectOk = true)
    (hsend : cenv.sendResult = 4) (hrecv : cenv.hdrRecv = 4)
    (hresp : cenv.respVal = ⟨0⟩) :
    handle_client senv = (true, ⟨some 0, none, true, some ⟨0⟩, false, 0⟩) ∧
    GetRandomBytes cenv 0 = ⟨true, some ⟨0⟩, false, 0, true⟩ := by
  constructor
  · simp [handle_client, generate_random_bytes, hreq, hval, hhdr]
  · simp [GetRandomBytes, hsock, hconn, hsend, hrecv, hresp]

/-- Witness for `c3_zero_length` at a concrete environment. -/
theorem c3_zero_length_witness :
    handle_client ⟨4, ⟨0⟩, 5, 4, []⟩ = (true, ⟨some 0, none, true, some ⟨0⟩, false, 0⟩) ∧
    GetRandomBytes ⟨true, true, 4, 4, ⟨0⟩, []⟩ 0 = ⟨true, some ⟨0⟩, false, 0, true⟩ :=
  c3_zero_length ⟨4, ⟨0⟩, 5, 4, []⟩ ⟨true, true, 4, 4, ⟨0⟩, []⟩
    rfl rfl rfl rfl rfl rfl rfl rfl

/-- C5: when the entropy source fails (getrandom returns a negative value
or fewer bytes than the nonzero request), handle_client returns false
before any write: the response-header send is never reached
(headerWriteAttempted = false), no header and no payload bytes are sent;
and the accept loop treats that connection like any other — the loop
outcome on the remaining events is unchanged, so the failure is confined
to that connection. -/
theorem c5_entropy_failure (senv : ServerEnv) (rest : List (Bool × ServerEvent))
    (hreq : senv.reqRecv = 4)
    (hnz : senv.reqVal.num_bytes ≠ 0)
    (hfail : senv.grResult < 0 ∨ senv.grResult ≠ (senv.reqVal.num_bytes : Int)) :
    handle_client senv =
      (false, ⟨some senv.reqVal.num_bytes, some senv.reqVal.num_bytes, false, none, false, 0⟩) ∧
    (server_loop ((true, ServerEvent.client senv) :: rest)).1 = (server_loop rest).1 := by
  have hgen : generate_random_bytes senv.grResult senv.reqVal.num_bytes =
      (false, some senv.reqVal.num_bytes) := by
    rcases hfail with h | h
    · simp [generate_random_bytes, hnz, h]
    · by_cases h2 : senv.grResult < 0
      · simp [generate_random_bytes, hnz, h2]
      · simp [generate_random_bytes, hnz, h2, h]
  constructor
  · simp [handle_client, hreq, hgen]
  · simp [server_loop]

/-- Witness for `c5_entropy_failure`: getrandom reports -1 for a
requested count of 8. -/
theorem c5_entropy_failure_witness :
    handle_client ⟨4, ⟨8⟩, -1, 4, [8]⟩ =
      (false, ⟨some 8, some 8, false, none, false, 0⟩) ∧
    (server_loop [(true, ServerEvent.client ⟨4, ⟨8⟩, -1, 4, [8]⟩)]).1 =
      (server_loop []).1 :=
  c5_entropy_failure ⟨4, ⟨8⟩, -1, 4, [8]⟩ [] rfl (by decide) (Or.inl (by decide))

/-- C7: the server performs no size validation: for every num_bytes value
representable in the unsigned 32-bit request field, once the header is
fully read the request reaches generate_random_bytes with exactly that
count (whatever getrandom then returns), and when the count is nonzero
getrandom itself is queried for exactly that count. -/
theorem c7_no_size_cap (n : Nat) (senv : ServerEnv)
    (hn : n < 2 ^ 32)
    (hreq : senv.reqRecv = 4) (hval : senv.reqVal = ⟨n⟩) :
    (handle_client senv).2.genRequested = some n ∧
    (0 < n → (handle_client senv).2.entropyQuery = some n) := by
  have hgen : (generate_random_bytes senv.grResult n).2 = if n = 0 then none else some n := by
    unfold generate_random_bytes
    split_ifs <;> simp_all
  simp only [handle_client, hreq, hval]
  rw [if_neg (show ¬((4 : Int) ≠ 4) by simp)]
  constructor
  · split_ifs <;> rfl
  · intro hpos
    have hq : (generate_random_bytes senv.grResult n).2 = some n := by
      rw [hgen, if_neg (by omega)]
    split_ifs <;> exact hq

/-- Witness for `c7_no_size_cap` at the largest 32-bit value, with a
failing entropy source: the request is still accepted and generation is
attempted for the full count. -/
theorem c7_no_size_cap_witness :
    (handle_client ⟨4, ⟨4294967295⟩, -1, 4, []⟩).2.genRequested = some 4294967295 ∧
    (0 < 4294967295 →
      (handle_client ⟨4, ⟨4294967295⟩, -1, 4, []⟩).2.entropyQuery = some 4294967295) :=
  c7_no_size_cap 4294967295 ⟨4, ⟨4294967295⟩, -1, 4, []⟩ (by decide) rfl rfl

/-- C1: round-trip exactness.  In an exchange where the server fully
reads a request for N bytes and reports success, and the client talks to
that server (the response header the client receives is the one the
server sent) and reports success, the announced actual_bytes equals the
requested N, the server wrote exactly N payload bytes, and the client
read exactly actual_bytes payload bytes.  The chunksBounded hypotheses
are the OS guarantee that send/recv never transfer more than asked. -/
theorem c1_round_trip (N : Nat) (senv : ServerEnv) (st : ServerTrace) (cenv : ClientEnv)
    (hreq : senv.reqRecv = 4) (hval : senv.reqVal = ⟨N⟩)
    (hsb : chunksBounded N senv.paySends 0 = true)
    (hsrv : handle_client senv = (true, st))
    (hsock : cenv.socketOk = true) (hconn : cenv.connectOk = true)
    (hsend : cenv.sendResult = 4) (hhdr : cenv.hdrRecv = 4)
    (hwire : st.headerSent = some cenv.respVal)
    (hcb : chunksBounded cenv.respVal.actual_bytes cenv.payRecvs 0 = true)
    (hcli : (GetRandomBytes cenv N).success = true) :
    cenv.respVal.actual_bytes = N ∧
    st.payloadSent = N ∧
    (GetRandomBytes cenv N).payloadReceived = cenv.respVal.actual_bytes := by
  simp only [handle_client, hreq, hval] at hsrv
  rw [if_neg (show ¬((4 : Int) ≠ 4) by simp)] at hsrv
  have hserver : st.headerSent = some ⟨N⟩ ∧ st.payloadSent = N := by
    split at hsrv
    · split at hsrv
      · exact absurd (congrArg Prod.fst hsrv) (by simp)
      · split at hsrv
        · rw [Prod.mk.injEq] at hsrv
          obtain ⟨hl, hst⟩ := hsrv
          subst hst
          exact ⟨rfl, sendLoop_exact N senv.paySends 0 (Nat.zero_le N) hsb hl⟩
        · rw [Prod.mk.injEq] at hsrv
          obtain ⟨-, hst⟩ := hsrv
          subst hst
          refine ⟨rfl, ?_⟩
          show 0 = N
          omega
    · exact absurd (congrArg Prod.fst hsrv) (by simp)
  obtain ⟨hhs, hps⟩ := hserver
  rw [hwire] at hhs
  have hrv : cenv.respVal = ⟨N⟩ := Option.some.inj hhs
  have hab : cenv.respVal.actual_bytes = N := by rw [hrv]
  rw [hab] at hcb
  refine ⟨hab, hps, ?_⟩
  rw [hab]
  by_cases hN : 0 < N
  · have hloop : (recvLoop N cenv.payRecvs 0).1 = true := by
      simp only [GetRandomBytes, hsock, hconn, hsend, hhdr, hrv] at hcli
      simpa [hN] using hcli
    have hdone := recvLoop_exact N cenv.payRecvs 0 (Nat.zero_le N) hcb hloop
    simp [GetRandomBytes, hsock, hconn, hsend, hhdr, hrv, hN, hdone]
  · have hN0 : N = 0 := by omega
    subst hN0
    simp [GetRandomBytes, hsock, hconn, hsend, hhdr, hrv]

/-- Witness for `c1_round_trip`: a 3-byte exchange where the server's
payload goes out as fragments 2+1 and arrives at the client as 1+2. -/
theorem c1_round_trip_witness :
    ((⟨3⟩ : RandomBytesResponse)).actual_bytes = 3 ∧
    ((⟨some 3, some 3, true, some ⟨3⟩, true, 3⟩ : ServerTrace)).payloadSent = 3 ∧
    (GetRandomBytes ⟨true, true, 4, 4, ⟨3⟩, [1, 2]⟩ 3).payloadReceived =
      ((⟨3⟩ : RandomBytesResponse)).actual_bytes :=
  c1_round_trip 3 ⟨4, ⟨3⟩, 3, 4, [2, 1]⟩ ⟨some 3, some 3, true, some ⟨3⟩, true, 3⟩
    ⟨true, true, 4, 4, ⟨3⟩, [1, 2]⟩ rfl rfl (by decide) (by decide) rfl rfl rfl rfl
    rfl (by decide) (by decide)

/-- C2 counterexample: the fixed header arrives split — the first read
fragment carries only 2 of the 4 header bytes, so the single-shot `recv`
returns 2.  Decoding does not succeed: the server fails the connection
before ever obtaining num_bytes (genRequested = none), and a client whose
response-header `recv` likewise returns a 2-byte fragment fails the call.
This refutes the claim that the receiver reassembles fragments. -/
theorem c2_counterexample :
    (handle_client ⟨2, ⟨7⟩, 7, 4, [7]⟩).1 = false ∧
    (handle_client ⟨2, ⟨7⟩, 7, 4, [7]⟩).2.genRequested = none ∧
    (GetRandomBytes ⟨true, true, 4, 2, ⟨7⟩, [7]⟩ 7).success = false := by
  decide

/-- C2 amended: when the fixed-size header arrives split across read
fragments (the single header `recv` returns fewer than 4 bytes), the
receiver does not reassemble: the server fails the connection without
decoding num_bytes, and the client fails the call. -/
theorem c2_short_header_fails (senv : ServerEnv) (cenv : ClientEnv) (num_bytes : Nat)
    (hs : senv.reqRecv < 4) (hc : cenv.hdrRecv < 4) :
    (handle_client senv).1 = false ∧
    (handle_client senv).2.genRequested = none ∧
    (GetRandomBytes cenv num_bytes).success = false := by
  have hs4 : senv.reqRecv ≠ 4 := by omega
  have hc4 : cenv.hdrRecv ≠ 4 := by omega
  refine ⟨?_, ?_, ?_⟩
  · simp [handle_client, hs4]
  · simp [handle_client, hs4]
  · rcases cenv with ⟨so, co, sr, hr, rv, prs⟩
    simp only [ClientEnv.hdrRecv] at hc4
    cases so
    · simp [GetRandomBytes]
    · cases co
      · simp [GetRandomBytes]
      · by_cases hsr : sr = 4
        · subst hsr
          simp [GetRandomBytes, hc4]
        · simp [GetRandomBytes, hsr]

/-- Witness for `c2_short_header_fails` at 2-byte first fragments. -/
theorem c2_short_header_fails_witness :
    (handle_client ⟨2, ⟨9⟩, 9, 4, [9]⟩).1 = false ∧
    (handle_client ⟨2, ⟨9⟩, 9, 4, [9]⟩).2.genRequested = none ∧
    (GetRandomBytes ⟨true, true, 4, 3, ⟨9⟩, [9]⟩ 9).success = false :=
  c2_short_header_fails ⟨2, ⟨9⟩, 9, 4, [9]⟩ ⟨true, true, 4, 3, ⟨9⟩, [9]⟩ 9
    (by decide) (by decide)

/-- C6: the client payload read loop.  When the response header announces
actual_bytes = M > 0: (a) any schedule of positive in-bound fragments
that delivers M bytes in total makes the call succeed having read exactly
M payload bytes; (b) a read returning 0 or a negative value while bytes
are still missing makes the call fail, and the socket is closed. -/
theorem c6_payload_read_loop (M num_bytes : Nat) (hM : 0 < M) :
    (∀ l : List Int, chunksOk M l 0 = true →
      GetRandomBytes ⟨true, true, 4, 4, ⟨M⟩, l⟩ num_bytes = ⟨true, some ⟨M⟩, true, M, true⟩) ∧
    (∀ (pre : List Int) (r : Int) (rest : List Int),
      chunksShort M pre 0 = true → r ≤ 0 →
      (GetRandomBytes ⟨true, true, 4, 4, ⟨M⟩, pre ++ r :: rest⟩ num_bytes).success = false ∧
      (GetRandomBytes ⟨true, true, 4, 4, ⟨M⟩, pre ++ r :: rest⟩ num_bytes).closedSocket = true) := by
  constructor
  · intro l hl
    have hc := recvLoop_complete M l 0 hl
    simp [GetRandomBytes, hM, hc]
  · intro pre r rest hp hr
    have hf := recvLoop_short_read_fail M pre 0 r rest hp hr
    constructor
    · simp [GetRandomBytes, hM, hf]
    · simp [GetRandomBytes, hM]

/-- Witness for `c6_payload_read_loop`: a 2-byte payload delivered as
1+1 succeeds; a payload cut off by a zero read after 1 of 2 bytes fails
with the socket closed. -/
theorem c6_payload_read_loop_witness :
    GetRandomBytes ⟨true, true, 4, 4, ⟨2⟩, [1, 1]⟩ 2 = ⟨true, some ⟨2⟩, true, 2, true⟩ ∧
    (GetRandomBytes ⟨true, true, 4, 4, ⟨2⟩, [1, 0]⟩ 2).success = false ∧
    (GetRandomBytes ⟨true, true, 4, 4, ⟨2⟩, [1, 0]⟩ 2).closedSocket = true :=
  ⟨(c6_payload_read_loop 2 2 (by decide)).1 [1, 1] (by decide),
   ((c6_payload_read_loop 2 2 (by decide)).2 [1] 0 [] (by decide) (by decide)).1,
   ((c6_payload_read_loop 2 2 (by decide)).2 [1] 0 [] (by decide) (by decide)).2⟩

/-- C9: the client never compares the announced count with the requested
one.  For any requested N and any announced M delivered in full, the call
succeeds having read exactly M bytes and holding header M; and the
result of `GetRandomBytes` does not depend on the requested count at all
(the request size only goes out on the wire). -/
theorem c9_client_trusts_announced_count (N M : Nat) (l : List Int)
    (hl : chunksOk M l 0 = true) :
    (GetRandomBytes ⟨true, true, 4, 4, ⟨M⟩, l⟩ N).success = true ∧
    (GetRandomBytes ⟨true, true, 4, 4, ⟨M⟩, l⟩ N).payloadReceived = M ∧
    (GetRandomBytes ⟨true, true, 4, 4, ⟨M⟩, l⟩ N).receivedHeader = some ⟨M⟩ ∧
    ∀ N2 : Nat, GetRandomBytes ⟨true, true, 4, 4, ⟨M⟩, l⟩ N =
      GetRandomBytes ⟨true, true, 4, 4, ⟨M⟩, l⟩ N2 := by
  by_cases hM : 0 < M
  · have hc := recvLoop_complete M l 0 hl
    refine ⟨?_, ?_, ?_, fun N2 => rfl⟩ <;> simp [GetRandomBytes, hM, hc]
  · have hM0 : M = 0 := by omega
    subst hM0
    refine ⟨?_, ?_, ?_, fun N2 => rfl⟩ <;> simp [GetRandomBytes]

/-- Witness for `c9_client_trusts_announced_count`: the client asked for
10 bytes, the server announced and delivered 3, and the call still
succeeds reporting 3 bytes. -/
theorem c9_client_trusts_announced_count_witness :
    (GetRandomBytes ⟨true, true, 4, 4, ⟨3⟩, [2, 1]⟩ 10).success = true ∧
    (GetRandomBytes ⟨true, true, 4, 4, ⟨3⟩, [2, 1]⟩ 10).payloadReceived = 3 ∧
    (GetRandomBytes ⟨true, true, 4, 4, ⟨3⟩, [2, 1]⟩ 10).receivedHeader = some ⟨3⟩ ∧
    ∀ N2 : Nat, GetRandomBytes ⟨true, true, 4, 4, ⟨3⟩, [2, 1]⟩ 10 =
      GetRandomBytes ⟨true, true, 4, 4, ⟨3⟩, [2, 1]⟩ N2 :=
  c9_client_trusts_announced_count 10 3 [2, 1] (by decide)

/-- The driver loop visits every iteration: the calls_made component
always equals the number of supplied outcomes, whatever they were. -/
theorem run_calls_made : ∀ l : List Bool, (run_calls l).2 = l.length := by
  intro l
  induction l with
  | nil => rfl
  | cons b rest ih =>
    simp only [run_calls, List.length_cons]
    omega

/-- The success counter never exceeds the number of iterations. -/
theorem run_calls_success_le : ∀ l : List Bool, (run_calls l).1 ≤ l.length := by
  intro l
  induction l with
  | nil => simp [run_calls]
  | cons b rest ih =>
    simp only [run_calls, List.length_cons]
    cases b <;> simp <;> omega

/-- The success counter reaches the iteration count exactly when every
individual outcome was a success. -/
theorem run_calls_all_true : ∀ l : List Bool,
    ((run_calls l).1 = l.length ↔ ∀ b ∈ l, b = true) := by
  intro l
  induction l with
  | nil => simp [run_calls]
  | cons b rest ih =>
    have hle := run_calls_success_le rest
    cases b
    · simp only [run_calls, List.length_cons, List.mem_cons]
      constructor
      · intro h
        exfalso
        simp only [Bool.false_eq_true, if_false] at h
        omega
      · intro h
        exact absurd (h false (Or.inl rfl)) (by simp)
    · simp only [run_calls, List.length_cons, List.mem_cons, if_true]
      constructor
      · intro h c hc
        rcases hc with rfl | hc
        · rfl
        · refine (ih.mp ?_) c hc
          omega
      · intro h
        have h2 : (run_calls rest).1 = rest.length :=
          ih.mpr fun c hc => h c (Or.inr hc)
        omega

/-- C4: across N >= 1 iterations the client driver makes every one of
the N calls (calls_made = N, no early exit exists in the loop), counts
the successes, and exits 0 exactly when every call succeeded, 1 exactly
when at least one failed. -/
theorem c4_driver_runs_all_iterations (outcomes : List Bool)
    (hN : 1 ≤ outcomes.length) :
    (run_calls outcomes).2 = outcomes.length ∧
    (client_exit_code outcomes = 0 ↔ ∀ b ∈ outcomes, b = true) ∧
    (client_exit_code outcomes = 1 ↔ ¬ ∀ b ∈ outcomes, b = true) := by
  have hiff := run_calls_all_true outcomes
  refine ⟨run_calls_made outcomes, ?_, ?_⟩
  · unfold client_exit_code
    by_cases hcase : (run_calls outcomes).1 = outcomes.length
    · rw [if_pos hcase]
      exact ⟨fun _ => hiff.mp hcase, fun _ => rfl⟩
    · rw [if_neg hcase]
      constructor
      · intro h
        exact absurd h (by omega)
      · intro h
        exact absurd (hiff.mpr h) hcase
  · unfold client_exit_code
    by_cases hcase : (run_calls outcomes).1 = outcomes.length
    · rw [if_pos hcase]
      constructor
      · intro h
        exact absurd h (by omega)
      · intro h
        exact absurd (hiff.mp hcase) h
    · rw [if_neg hcase]
      exact ⟨fun _ h => hcase (hiff.mpr h), fun _ => rfl⟩

/-- Witness for `c4_driver_runs_all_iterations`: two iterations, the
second failing — both calls are made and the exit code is 1. -/
theorem c4_driver_runs_all_iterations_witness :
    (run_calls [true, false]).2 = [true, false].length ∧
    (client_exit_code [true, false] = 0 ↔ ∀ b ∈ [true, false], b = true) ∧
    (client_exit_code [true, false] = 1 ↔ ¬ ∀ b ∈ [true, false], b = true) :=
  c4_driver_runs_all_iterations [true, false] (by decide)

/-- C8: the accept loop survives every per-connection failure.  (1) As
long as the running flag stays up and every event is a timeout, an
EINTR-interrupted select, a failed accept, or a client connection
(including ones whose handle_client fails), the loop never terminates.
(2) Every handled connection gets exactly one close: the close count
always equals the connection count.  (3) Processing a client connection
— whatever its outcome — leaves the loop result on the remaining events
unchanged apart from the two counters.  (4) The loop reports shutdown
only if the running flag was actually observed false at some iteration. -/
theorem c8_accept_loop_survives_failures :
    (∀ l : List (Bool × ServerEvent),
      (∀ p ∈ l, p.1 = true ∧ perConnEvent p.2 = true) →
      (server_loop l).1 = LoopExit.ranOut) ∧
    (∀ l : List (Bool × ServerEvent), (server_loop l).2.2 = (server_loop l).2.1) ∧
    (∀ (cenv : ServerEnv) (rest : List (Bool × ServerEvent)),
      server_loop ((true, ServerEvent.client cenv) :: rest) =
        ((server_loop rest).1, (server_loop rest).2.1 + 1, (server_loop rest).2.2 + 1)) ∧
    (∀ l : List (Bool × ServerEvent),
      (server_loop l).1 = LoopExit.shutdown → ∃ p ∈ l, p.1 = false) := by
  refine ⟨?_, ?_, ?_, ?_⟩
  · intro l
    induction l with
    | nil => intro _; rfl
    | cons p rest ih =>
      intro h
      obtain ⟨run, ev⟩ := p
      obtain ⟨hrun, hev⟩ := h (run, ev) (List.mem_cons_self _ _)
      simp only at hrun hev
      subst hrun
      have hrest : ∀ q ∈ rest, q.1 = true ∧ perConnEvent q.2 = true :=
        fun q hq => h q (List.mem_cons_of_mem _ hq)
      cases ev with
      | selectErr e =>
        simp only [perConnEvent] at hev
        subst hev
        simpa [server_loop] using ih hrest
      | selectTimeout => simpa [server_loop] using ih hrest
      | acceptFail => simpa [server_loop] using ih hrest
      | client cenv => simpa [server_loop] using ih hrest
  · intro l
    induction l with
    | nil => rfl
    | cons p rest ih =>
      obtain ⟨run, ev⟩ := p
      cases run
      · simp [server_loop]
      · cases ev with
        | selectErr e =>
          cases e
          · simp [server_loop]
          · simpa [server_loop] using ih
        | selectTimeout => simpa [server_loop] using ih
        | acceptFail => simpa [server_loop] using ih
        | client cenv => simp [server_loop, ih]
  · intro cenv rest
    rfl
  · intro l
    induction l with
    | nil =>
      intro h
      exact absurd h (by simp [server_loop])
    | cons p rest ih =>
      obtain ⟨run, ev⟩ := p
      cases run
      · intro _
        exact ⟨(false, ev), List.mem_cons_self _ _, rfl⟩
      · intro h
        have hrest : (server_loop rest).1 = LoopExit.shutdown := by
          cases ev with
          | selectErr e =>
            cases e
            · simp [server_loop] at h
            · simpa [server_loop] using h
          | selectTimeout => simpa [server_loop] using h
          | acceptFail => simpa [server_loop] using h
          | client cenv => simpa [server_loop] using h
        obtain ⟨q, hq, hq1⟩ := ih hrest
        exact ⟨q, List.mem_cons_of_mem _ hq, hq1⟩

/-- Witness for `c8_accept_loop_survives_failures` on a concrete trace:
a timeout, a failed accept, an interrupted select and a failing client
connection leave the loop running; a client connection is closed and
counted; shutdown exit implies the flag was seen false. -/
theorem c8_accept_loop_survives_failures_witness :
    (server_loop [(true, ServerEvent.selectTimeout), (true, ServerEvent.acceptFail),
      (true, ServerEvent.selectErr true), (true, ServerEvent.client ⟨2, ⟨1⟩, -1, 4, []⟩)]).1 =
      LoopExit.ranOut ∧
    (server_loop [(true, ServerEvent.client ⟨4, ⟨1⟩, -1, 4, []⟩)]).2.2 =
      (server_loop [(true, ServerEvent.client ⟨4, ⟨1⟩, -1, 4, []⟩)]).2.1 ∧
    server_loop [(true, ServerEvent.client ⟨4, ⟨2⟩, -1, 4, []⟩)] =
      ((server_loop []).1, (server_loop []).2.1 + 1, (server_loop []).2.2 + 1) ∧
    ((server_loop [(false, ServerEvent.selectTimeout)]).1 = LoopExit.shutdown →
      ∃ p ∈ [((false : Bool), ServerEvent.selectTimeout)], p.1 = false) :=
  ⟨c8_accept_loop_survives_failures.1 _ (by decide),
   c8_accept_loop_survives_failures.2.1 _,
   c8_accept_loop_survives_failures.2.2.1 ⟨4, ⟨2⟩, -1, 4, []⟩ [],
   c8_accept_loop_survives_failures.2.2.2 _⟩

/-- A run outcome of the option-parsing loop always carries a positive
byte count when the incoming byte count is positive: the only assignment
to it is guarded by the positivity check. -/
theorem parse_args_run_bytes_pos :
    ∀ (opts : List CliOpt) (its b : Int) (lg : Bool) (its2 b2 : Int) (lg2 : Bool),
      0 < b → parse_args opts its b lg = ParseOutcome.run its2 b2 lg2 → 0 < b2 := by
  intro opts
  induction opts with
  | nil =>
    intro its b lg its2 b2 lg2 hb h
    simp only [parse_args, ParseOutcome.run.injEq] at h
    omega
  | cons o rest ih =>
    intro its b lg its2 b2 lg2 hb h
    cases o with
    | iterations v =>
      simp only [parse_args] at h
      by_cases hv : v ≤ 0
      · rw [if_pos hv] at h
        exact absurd h (by simp)
      · rw [if_neg hv] at h
        exact ih v b lg its2 b2 lg2 hb h
    | bytes v =>
      simp only [parse_args] at h
      by_cases hv : v ≤ 0
      · rw [if_pos hv] at h
        exact absurd h (by simp)
      · rw [if_neg hv] at h
        exact ih its v lg its2 b2 lg2 (by omega) h
    | timeout v =>
      simp only [parse_args] at h
      by_cases hv : v < 0
      · rw [if_pos hv] at h
        exact absurd h (by simp)
      · rw [if_neg hv] at h
        exact ih its b lg its2 b2 lg2 hb h
    | log =>
      simp only [parse_args] at h
      exact ih its b true its2 b2 lg2 hb h
    | quiet =>
      simp only [parse_args] at h
      exact ih its b false its2 b2 lg2 hb h
    | socket =>
      simp only [parse_args] at h
      exact ih its b lg its2 b2 lg2 hb h
    | help =>
      simp only [parse_args] at h
      exact absurd h (by simp)
    | badOpt =>
      simp only [parse_args] at h
      exact absurd h (by simp)

/-- C10: the client executable rejects a non-positive requested byte
count during option parsing, returning exit code 1 from inside the
getopt loop — before any socket is created or any call is made; and with
the defaults iterations = 1, bytes = 10, no option list can make the
parser fall through to the benchmark loop with a byte count of 0 or
less, so the zero-length exchange is unreachable through the
command-line interface. -/
theorem c10_cli_rejects_nonpositive_bytes :
    (∀ (v : Int) (rest : List CliOpt) (iterations bytes : Int) (log_output : Bool),
      v ≤ 0 →
      parse_args (CliOpt.bytes v :: rest) iterations bytes log_output =
        ParseOutcome.exit 1) ∧
    (∀ (opts : List CliOpt) (iterations bytes : Int) (log_output : Bool),
      parse_args opts 1 10 true = ParseOutcome.run iterations bytes log_output →
      0 < bytes) := by
  constructor
  · intro v rest its b lg hv
    simp [parse_args, hv]
  · intro opts its b lg h
    exact parse_args_run_bytes_pos opts 1 10 true its b lg (by norm_num) h

/-- Witness for `c10_cli_rejects_nonpositive_bytes`: passing 0 to the
bytes option exits with code 1, and an option list that does reach the
run phase carries a positive byte count. -/
theorem c10_cli_rejects_nonpositive_bytes_witness :
    parse_args [CliOpt.bytes 0] 1 10 true = ParseOutcome.exit 1 ∧
    (0 : Int) < 10 :=
  ⟨c10_cli_rejects_nonpositive_bytes.1 0 [] 1 10 true (by decide),
   c10_cli_rejects_nonpositive_bytes.2 [CliOpt.iterations 5] 5 10 true (by decide)⟩
